import Mathlib

/-!
Verification of the ntex-redis RESP codec, pipelining transport, client,
connector handshake, pub/sub demultiplexer and error model, as a shallow
embedding of the Rust sources (src/codec.rs, src/transport.rs, src/client.rs,
src/connector.rs, src/cmd/auth.rs, src/cmd/pubsub.rs, src/errors.rs).

Byte buffers (ntex BytesMut) are embedded as lists of naturals; the mutating
operations advance/split_to become list drop/take, with each decoder returning
the resulting buffer alongside its result.
-/

namespace NtexRedis

/-- A byte buffer (ntex BytesMut / Bytes), one natural per byte. -/
abbrev Buf := List Nat

/-- A single RESP value read from Redis (codec.rs, enum Response).
ByteString payloads are kept as their UTF-8 bytes. -/
inductive Response where
  | nil : Response
  | array (items : List Response) : Response
  | bytes (data : Buf) : Response
  | string (data : Buf) : Response
  | error (data : Buf) : Response
  | integer (val : Int) : Response
deriving Repr

/-- A single RESP value written to Redis (codec.rs, enum Request). -/
inductive Request where
  | array (items : List Request) : Request
  | bulkString (data : Buf) : Request
  | bulkStatic (data : Buf) : Request
  | bulkInteger (val : Int) : Request
  | string (data : Buf) : Request
  | integer (val : Int) : Request
deriving Repr

mutual
/-- Decidable equality for Response (the derive handler does not support the
nested List occurrence). -/
def Response.decEq : (a b : Response) → Decidable (a = b)
  | .nil, .nil => .isTrue rfl
  | .array a, .array b =>
      match Response.decEqList a b with
      | .isTrue h => .isTrue (by rw [h])
      | .isFalse h => .isFalse (fun he => h (by cases he; rfl))
  | .bytes a, .bytes b =>
      if h : a = b then .isTrue (by rw [h]) else .isFalse (fun he => h (by cases he; rfl))
  | .string a, .string b =>
      if h : a = b then .isTrue (by rw [h]) else .isFalse (fun he => h (by cases he; rfl))
  | .error a, .error b =>
      if h : a = b then .isTrue (by rw [h]) else .isFalse (fun he => h (by cases he; rfl))
  | .integer a, .integer b =>
      if h : a = b then .isTrue (by rw [h]) else .isFalse (fun he => h (by cases he; rfl))
  | .nil, .array _ => .isFalse nofun
  | .nil, .bytes _ => .isFalse nofun
  | .nil, .string _ => .isFalse nofun
  | .nil, .error _ => .isFalse nofun
  | .nil, .integer _ => .isFalse nofun
  | .array _, .nil => .isFalse nofun
  | .array _, .bytes _ => .isFalse nofun
  | .array _, .string _ => .isFalse nofun
  | .array _, .error _ => .isFalse nofun
  | .array _, .integer _ => .isFalse nofun
  | .bytes _, .nil => .isFalse nofun
  | .bytes _, .array _ => .isFalse nofun
  | .bytes _, .string _ => .isFalse nofun
  | .bytes _, .error _ => .isFalse nofun
  | .bytes _, .integer _ => .isFalse nofun
  | .string _, .nil => .isFalse nofun
  | .string _, .array _ => .isFalse nofun
  | .string _, .bytes _ => .isFalse nofun
  | .string _, .error _ => .isFalse nofun
  | .string _, .integer _ => .isFalse nofun
  | .error _, .nil => .isFalse nofun
  | .error _, .array _ => .isFalse nofun
  | .error _, .bytes _ => .isFalse nofun
  | .error _, .string _ => .isFalse nofun
  | .error _, .integer _ => .isFalse nofun
  | .integer _, .nil => .isFalse nofun
  | .integer _, .array _ => .isFalse nofun
  | .integer _, .bytes _ => .isFalse nofun
  | .integer _, .string _ => .isFalse nofun
  | .integer _, .error _ => .isFalse nofun

/-- Decidable equality for lists of Response values. -/
def Response.decEqList : (a b : List Response) → Decidable (a = b)
  | [], [] => .isTrue rfl
  | [], _ :: _ => .isFalse nofun
  | _ :: _, [] => .isFalse nofun
  | x :: xs, y :: ys =>
      match Response.decEq x y with
      | .isFalse h => .isFalse (fun he => h (by cases he; rfl))
      | .isTrue h1 =>
          match Response.decEqList xs ys with
          | .isTrue h2 => .isTrue (by rw [h1, h2])
          | .isFalse h => .isFalse (fun he => h (by cases he; rfl))
end

instance : DecidableEq Response := Response.decEq

mutual
/-- Decidable equality for Request (the derive handler does not support the
nested List occurrence). -/
def Request.decEq : (a b : Request) → Decidable (a = b)
  | .array a, .array b =>
      match Request.decEqList a b with
      | .isTrue h => .isTrue (by rw [h])
      | .isFalse h => .isFalse (fun he => h (by cases he; rfl))
  | .bulkString a, .bulkString b =>
      if h : a = b then .isTrue (by rw [h]) else .isFalse (fun he => h (by cases he; rfl))
  | .bulkStatic a, .bulkStatic b =>
      if h : a = b then .isTrue (by rw [h]) else .isFalse (fun he => h (by cases he; rfl))
  | .bulkInteger a, .bulkInteger b =>
      if h : a = b then .isTrue (by rw [h]) else .isFalse (fun he => h (by cases he; rfl))
  | .string a, .string b =>
      if h : a = b then .isTrue (by rw [h]) else .isFalse (fun he => h (by cases he; rfl))
  | .integer a, .integer b =>
      if h : a = b then .isTrue (by rw [h]) else .isFalse (fun he => h (by cases he; rfl))
  | .array _, .bulkString _ => .isFalse nofun
  | .array _, .bulkStatic _ => .isFalse nofun
  | .array _, .bulkInteger _ => .isFalse nofun
  | .array _, .string _ => .isFalse nofun
  | .array _, .integer _ => .isFalse nofun
  | .bulkString _, .array _ => .isFalse nofun
  | .bulkString _, .bulkStatic _ => .isFalse nofun
  | .bulkString _, .bulkInteger _ => .isFalse nofun
  | .bulkString _, .string _ => .isFalse nofun
  | .bulkString _, .integer _ => .isFalse nofun
  | .bulkStatic _, .array _ => .isFalse nofun
  | .bulkStatic _, .bulkString _ => .isFalse nofun
  | .bulkStatic _, .bulkInteger _ => .isFalse nofun
  | .bulkStatic _, .string _ => .isFalse nofun
  | .bulkStatic _, .integer _ => .isFalse nofun
  | .bulkInteger _, .array _ => .isFalse nofun
  | .bulkInteger _, .bulkString _ => .isFalse nofun
  | .bulkInteger _, .bulkStatic _ => .isFalse nofun
  | .bulkInteger _, .string _ => .isFalse nofun
  | .bulkInteger _, .integer _ => .isFalse nofun
  | .string _, .array _ => .isFalse nofun
  | .string _, .bulkString _ => .isFalse nofun
  | .string _, .bulkStatic _ => .isFalse nofun
  | .string _, .bulkInteger _ => .isFalse nofun
  | .string _, .integer _ => .isFalse nofun
  | .integer _, .array _ => .isFalse nofun
  | .integer _, .bulkString _ => .isFalse nofun
  | .integer _, .bulkStatic _ => .isFalse nofun
  | .integer _, .bulkInteger _ => .isFalse nofun
  | .integer _, .string _ => .isFalse nofun

/-- Decidable equality for lists of Request values. -/
def Request.decEqList : (a b : List Request) → Decidable (a = b)
  | [], [] => .isTrue rfl
  | [], _ :: _ => .isFalse nofun
  | _ :: _, [] => .isFalse nofun
  | x :: xs, y :: ys =>
      match Request.decEq x y with
      | .isFalse h => .isFalse (fun he => h (by cases he; rfl))
      | .isTrue h1 =>
          match Request.decEqList xs ys with
          | .isTrue h2 => .isTrue (by rw [h1, h2])
          | .isFalse h => .isFalse (fun he => h (by cases he; rfl))
end

instance : DecidableEq Request := Request.decEq

instance {ε α : Type} [DecidableEq ε] [DecidableEq α] : DecidableEq (Except ε α)
  | .ok a, .ok b =>
      if h : a = b then .isTrue (by rw [h]) else .isFalse (fun he => h (by cases he; rfl))
  | .error a, .error b =>
      if h : a = b then .isTrue (by rw [h]) else .isFalse (fun he => h (by cases he; rfl))
  | .ok _, .error _ => .isFalse nofun
  | .error _, .ok _ => .isFalse nofun

/-- Redis protocol errors (errors.rs, enum Error). The io::Error cause is kept
as an opaque payload. -/
structure IoError where
  code : Int
deriving Repr, DecidableEq

inductive Error where
  | parse (descr : String) : Error
  | io (cause : Option IoError) : Error
  | disconnected : Error
deriving Repr, DecidableEq

/-- Digit-emission loop for natDecimal: pushes the decimal digits of n onto
acc, least significant digit first; fuel at least n makes the fuel-exhausted
first arm unreachable. -/
def natDecimalGo : Nat → Nat → Buf → Buf
  | 0, n, acc => (48 + n % 10) :: acc
  | fuel + 1, n, acc =>
      if n < 10 then (48 + n) :: acc
      else natDecimalGo fuel (n / 10) ((48 + n % 10) :: acc)

/-- Decimal digits (ASCII) of a natural number, most significant first
(itoa::write for non-negative input). -/
def natDecimal (n : Nat) : Buf := natDecimalGo n n []

/-- Decimal ASCII representation of a signed integer (itoa::write). -/
def intDecimal (i : Int) : Buf :=
  if i < 0 then 45 :: natDecimal i.natAbs else natDecimal i.toNat

/-- Appends CRLF to the write buffer (codec.rs, write_rn). -/
def write_rn (buf : Buf) : Buf := buf ++ [13, 10]

/-- Writes a RESP header: type byte, decimal length, CRLF (codec.rs,
write_header; the buffer reservation is a no-op in this model). -/
def write_header (symb : Nat) (len : Int) (buf : Buf) : Buf :=
  write_rn (buf ++ [symb] ++ intDecimal len)

/-- Writes a simple-string style frame (codec.rs, write_string). -/
def write_string (symb : Nat) (s : Buf) (buf : Buf) : Buf :=
  write_rn (buf ++ [symb] ++ s)

mutual
/-- Encoder for request frames (codec.rs, Codec::encode). Always succeeds, so
the Result wrapper of the source is dropped. -/
def Codec.encode : Request → Buf → Buf
  | .array ary, buf => Codec.encodeList ary (write_header 42 ary.length buf)
  | .bulkString bstr, buf =>
      write_rn (write_header 36 bstr.length buf ++ bstr)
  | .bulkStatic bstr, buf =>
      write_rn (write_header 36 bstr.length buf ++ bstr)
  | .bulkInteger i, buf =>
      let s := intDecimal i
      write_rn (write_header 36 s.length buf ++ s)
  | .string s, buf => write_string 43 s buf
  | .integer v, buf => write_header 58 v buf

/-- Encodes the elements of an array in order (the for-loop of Codec::encode). -/
def Codec.encodeList : List Request → Buf → Buf
  | [], buf => buf
  | r :: rest, buf => Codec.encodeList rest (Codec.encode r buf)
end

/-- The bytes of an encoded request frame. -/
def encBytes (r : Request) : Buf := Codec.encode r []

/-- Position of the first CRLF window in a buffer
(buf.windows(2).position of codec.rs). -/
def findCRLF : Buf → Option Nat
  | a :: b :: rest =>
      if a = 13 ∧ b = 10 then some 0
      else (findCRLF (b :: rest)).map (· + 1)
  | _ => none

/-- True for an ASCII decimal digit byte. -/
def isDigitByte (d : Nat) : Bool := 48 ≤ d && d ≤ 57

/-- Value of a non-empty all-digit byte string. -/
def digitsVal (l : Buf) : Option Nat :=
  if l ≠ [] ∧ l.all isDigitByte then
    some (l.foldl (fun a d => a * 10 + (d - 48)) 0)
  else none

def i64Min : Int := -(2 ^ 63)
def i64Max : Int := 2 ^ 63 - 1

/-- Parses a signed 64-bit decimal integer from bytes (the btoi crate's
btoi::<i64>): optional sign (43 is the plus, 45 the minus byte), at least one
digit, error on overflow past the i64 range. -/
def btoiI64 (s : Buf) : Option Int :=
  match s with
  | [] => none
  | c :: rest =>
      if c = 43 then
        (digitsVal rest).bind fun n =>
          if (n : Int) ≤ i64Max then some (n : Int) else none
      else if c = 45 then
        (digitsVal rest).bind fun n =>
          if i64Min ≤ -(n : Int) then some (-(n : Int)) else none
      else
        (digitsVal (c :: rest)).bind fun n =>
          if (n : Int) ≤ i64Max then some (n : Int) else none

/-- True for a UTF-8 continuation byte. -/
def isCont (b : Nat) : Bool := 128 ≤ b && b ≤ 191

/-- UTF-8 validity of a byte string, as checked by str::from_utf8, which
backs ByteString::try_from in scan_string. -/
def validUtf8 : Buf → Bool
  | [] => true
  | b :: rest =>
    if b < 128 then validUtf8 rest
    else if 194 ≤ b && b ≤ 223 then
      match rest with
      | c1 :: r => isCont c1 && validUtf8 r
      | _ => false
    else if b = 224 then
      match rest with
      | c1 :: c2 :: r => (160 ≤ c1 && c1 ≤ 191) && isCont c2 && validUtf8 r
      | _ => false
    else if 225 ≤ b && b ≤ 236 then
      match rest with
      | c1 :: c2 :: r => isCont c1 && isCont c2 && validUtf8 r
      | _ => false
    else if b = 237 then
      match rest with
      | c1 :: c2 :: r => (128 ≤ c1 && c1 ≤ 159) && isCont c2 && validUtf8 r
      | _ => false
    else if 238 ≤ b && b ≤ 239 then
      match rest with
      | c1 :: c2 :: r => isCont c1 && isCont c2 && validUtf8 r
      | _ => false
    else if b = 240 then
      match rest with
      | c1 :: c2 :: c3 :: r =>
          (144 ≤ c1 && c1 ≤ 191) && isCont c2 && isCont c3 && validUtf8 r
      | _ => false
    else if 241 ≤ b && b ≤ 243 then
      match rest with
      | c1 :: c2 :: c3 :: r => isCont c1 && isCont c2 && isCont c3 && validUtf8 r
      | _ => false
    else if b = 244 then
      match rest with
      | c1 :: c2 :: c3 :: r =>
          (128 ≤ c1 && c1 ≤ 143) && isCont c2 && isCont c3 && validUtf8 r
      | _ => false
    else false

/-- Result of a decoding step: the buffer after any mutation, and either a
parse error, NeedMore (none), or a position/value pair (codec.rs,
DecodeResult, with the BytesMut mutation made explicit). -/
abbrev DecodeStep := Buf × Except Error (Option (Nat × Response))

/-- Reads a CRLF-terminated decimal length line starting at idx; does not
mutate the buffer (codec.rs, decode_length). -/
def decode_length (buf : Buf) (idx : Nat) : Except Error (Option (Nat × Int)) :=
  match findCRLF (buf.drop idx) with
  | none => .ok none
  | some p =>
      match btoiI64 ((buf.drop idx).take p) with
      | some i => .ok (some (idx + p + 2, i))
      | none => .error (.parse "Not an integer")

/-- Decodes a bulk string at idx: a -1 length yields Nil; length n requires
n+2 further bytes after the header, then advances the buffer past the header
and splits off the payload, leaving the trailing CRLF to be skipped by the
returned position 2 (codec.rs, decode_bytes). -/
def decode_bytes (buf : Buf) (idx : Nat) : DecodeStep :=
  match decode_length buf idx with
  | .error e => (buf, .error e)
  | .ok none => (buf, .ok none)
  | .ok (some (pos, size)) =>
      if size = -1 then (buf, .ok (some (pos, .nil)))
      else if 0 ≤ size then
        let sz := size.toNat
        if buf.length - pos < sz + 2 then (buf, .ok none)
        else (((buf.drop pos).drop sz),
              .ok (some (2, .bytes ((buf.drop pos).take sz))))
      else (buf, .error (.parse "Invalid string size"))

/-- Decodes an integer frame at idx (codec.rs, decode_integer). -/
def decode_integer (buf : Buf) (idx : Nat) : DecodeStep :=
  match decode_length buf idx with
  | .error e => (buf, .error e)
  | .ok none => (buf, .ok none)
  | .ok (some (pos, int)) => (buf, .ok (some (pos, .integer int)))

/-- Scans for a CRLF-terminated string at idx, advancing the buffer to idx and
splitting off the payload, which must be valid UTF-8 (codec.rs, scan_string). -/
def scan_string (buf : Buf) (idx : Nat) : Buf × Except Error (Option (Nat × Buf)) :=
  match findCRLF (buf.drop idx) with
  | none => (buf, .ok none)
  | some p =>
      let content := (buf.drop idx).take p
      let buf' := (buf.drop idx).drop p
      if validUtf8 content then (buf', .ok (some (2, content)))
      else (buf', .error (.parse "Not a valid string"))

/-- Decodes a simple string frame (codec.rs, decode_string). -/
def decode_string (buf : Buf) (idx : Nat) : DecodeStep :=
  match scan_string buf idx with
  | (buf', .error e) => (buf', .error e)
  | (buf', .ok none) => (buf', .ok none)
  | (buf', .ok (some (pos, s))) => (buf', .ok (some (pos, .string s)))

/-- Decodes an error frame (codec.rs, decode_error). -/
def decode_error (buf : Buf) (idx : Nat) : DecodeStep :=
  match scan_string buf idx with
  | (buf', .error e) => (buf', .error e)
  | (buf', .ok none) => (buf', .ok none)
  | (buf', .ok (some (pos, s))) => (buf', .ok (some (pos, .error s)))

/-- The child loop of decode_array, parameterized by the child decoder:
threads the (possibly mutated) buffer and position through the requested
number of child decodes; a NeedMore from any child aborts the whole call with
NeedMore, leaving the buffer as the children decoded so far left it. -/
def decodeArrayLoop (child : Buf → Nat → DecodeStep) :
    Nat → Buf → Nat → Buf × Except Error (Option (Nat × List Response))
  | 0, buf, pos => (buf, .ok (some (pos, [])))
  | count + 1, buf, pos =>
      match child buf pos with
      | (buf', .error e) => (buf', .error e)
      | (buf', .ok none) => (buf', .ok none)
      | (buf', .ok (some (newPos, value))) =>
          match decodeArrayLoop child count buf' newPos with
          | (buf'', .error e) => (buf'', .error e)
          | (buf'', .ok none) => (buf'', .ok none)
          | (buf'', .ok (some (endPos, values))) =>
              (buf'', .ok (some (endPos, value :: values)))

/-- Decodes an array frame at idx, children decoded by the given child
decoder: a -1 count yields Nil, a non-negative count decodes that many
children (codec.rs, decode_array). -/
def decode_array (child : Buf → Nat → DecodeStep) (buf : Buf) (idx : Nat) : DecodeStep :=
  match decode_length buf idx with
  | .error e => (buf, .error e)
  | .ok none => (buf, .ok none)
  | .ok (some (pos, size)) =>
      if size = -1 then (buf, .ok (some (pos, .nil)))
      else if 0 ≤ size then
        match decodeArrayLoop child size.toNat buf pos with
        | (buf', .error e) => (buf', .error e)
        | (buf', .ok none) => (buf', .ok none)
        | (buf', .ok (some (endPos, values))) =>
            (buf', .ok (some (endPos, .array values)))
      else (buf, .error (.parse "Invalid array size"))

/-- Dispatches on the frame type byte at idx (codec.rs, decode). The fuel
argument bounds the nesting depth of arrays; it is an embedding artifact
(the Rust recursion is bounded by the call stack) and the top-level entry
point supplies fuel exceeding any depth a buffer of that length can encode,
so the fuel-exhausted branch is unreachable from it. -/
def decodeD : Nat → Buf → Nat → DecodeStep
  | 0, buf, _ => (buf, .ok none)
  | fuel + 1, buf, idx =>
      if h : idx < buf.length then
        match buf.get ⟨idx, h⟩ with
        | 36 => decode_bytes buf (idx + 1)
        | 42 => decode_array (decodeD fuel) buf (idx + 1)
        | 58 => decode_integer buf (idx + 1)
        | 43 => decode_string buf (idx + 1)
        | 45 => decode_error buf (idx + 1)
        | _ => (buf, .error (.parse "Unexpected byte"))
      else (buf, .ok none)

/-- Top-level decoder (codec.rs, Decoder::decode for Codec): on a complete
frame, advance the buffer past the consumed position and return the frame. -/
def Codec.decode (buf : Buf) : Buf × Except Error (Option Response) :=
  match decodeD (buf.length + 1) buf 0 with
  | (buf', .error e) => (buf', .error e)
  | (buf', .ok none) => (buf', .ok none)
  | (buf', .ok (some (pos, item))) => (buf'.drop pos, .ok (some item))

/-! Error model (errors.rs) and the transport failure drain (transport.rs). -/

/-- The variant tag of an Error value. -/
inductive ErrorKind where
  | parse : ErrorKind
  | io : ErrorKind
  | disconnected : ErrorKind
deriving Repr, DecidableEq

def Error.kind : Error → ErrorKind
  | .parse _ => .parse
  | .io _ => .io
  | .disconnected => .disconnected

/-- Clone for Error (errors.rs): the parse description and the io cause are
not duplicated; only the variant survives. -/
def Error.clone : Error → Error
  | .parse _ => .parse ""
  | .io _ => .io none
  | .disconnected => .disconnected

/-- Transport::failed (transport.rs): drains the inflight queue, sending a
clone of the triggering error to every waiter. Senders are identified by
naturals; the result lists the deliveries in drain order. -/
def Transport.failed (err : Error) : List Nat → List (Nat × Error)
  | [] => []
  | tx :: rest => (tx, err.clone) :: Transport.failed err rest

/-! Pipelining transport (transport.rs, Transport::poll). The write loop
accepts submissions from the channel, enqueues each one-shot sender on the
inflight FIFO and encodes the request into the write buffer; the read loop
pops the FIFO head for every decoded frame. -/

/-- The write loop body for a batch of accepted submissions (request plus
one-shot sender): push_back the sender, then encode the request into the
write buffer (Codec::encode is total, so the encode-failure arm of the
source is unreachable). -/
def Transport.write : List (Request × Nat) → List Nat × Buf → List Nat × Buf
  | [], st => st
  | (req, tx) :: rest, (queue, wbuf) =>
      Transport.write rest (queue ++ [tx], Codec.encode req wbuf)

/-- The read loop body for a batch of decoded frames: deliver each frame to
the current FIFO head; a frame arriving on an empty FIFO is logged and
discarded. Returns the deliveries in order and the remaining FIFO. -/
def Transport.dispatch : List Response → List Nat → List (Nat × Response) × List Nat
  | [], queue => ([], queue)
  | el :: rest, tx :: queue =>
      let (ds, queue') := Transport.dispatch rest queue
      ((tx, el) :: ds, queue')
  | _ :: rest, [] => Transport.dispatch rest []

/-! Shared client (client.rs). client.rs belongs to a later revision of the
crate than the checked-in errors.rs: it references Error::PeerGone, which the
checked-in enum does not carry. -/

/-- Modelled from the spec: the client-era protocol error enum of §4.2, whose
PeerGone variant (optional io cause) client.rs and simple.rs reference but
the checked-in errors.rs does not define. -/
inductive ClientError where
  | peerGone (cause : Option IoError) : ClientError
  | parseFailure (descr : String) : ClientError
deriving Repr, DecidableEq

/-- Redis command execution errors (errors.rs, enum CommandError), with the
Protocol variant carrying the client-era error enum. -/
inductive CommandError where
  | error (text : Buf) : CommandError
  | output (reason : String) (frame : Response) : CommandError
  | protocol (e : ClientError) : CommandError
deriving Repr, DecidableEq

/-- Redis connectivity errors (errors.rs, enum ConnectError). The payloads of
Command come from the derive_more::From conversion used by the `?` operator
in connector.rs. -/
inductive ConnectError where
  | unauthorized : ConnectError
  | command (e : CommandError) : ConnectError
  | connect : ConnectError
deriving Repr, DecidableEq

/-- Client connection state: the io closed flag, the write buffer, the
inflight FIFO of one-shot senders, and a counter supplying fresh sender ids
(pool.channel() of client.rs). -/
structure ClientState where
  closed : Bool
  wbuf : Buf
  queue : List Nat
  nextId : Nat
deriving Repr, DecidableEq

/-- Modelled from the spec: ntex IoRef::encode (a dependency, not in src/) —
encodes the frame into the connection's write buffer (§4.5 "encode directly
into the transport's write buffer"); Codec::encode is total, so the call
returns Ok; on a closed io the write is discarded (§4.4: writes stop once the
connection is draining/closed). -/
def IoRef.encode (req : Request) (st : ClientState) :
    ClientState × Except ClientError Unit :=
  if st.closed then (st, .ok ())
  else ({ st with wbuf := Codec.encode req st.wbuf }, .ok ())

/-- The future a call/exec returns before any server response arrives. -/
inductive CallFuture where
  | waiting (rx : Nat) : CallFuture
  | ready (e : ClientError) : CallFuture
deriving Repr, DecidableEq

/-- Service::call for Client (client.rs): encode the request via the io
handle; on success allocate a one-shot channel and push the sender onto the
inflight FIFO. -/
def Client.call (req : Request) (st : ClientState) : ClientState × CallFuture :=
  match IoRef.encode req st with
  | (st', .error e) => (st', .ready e)
  | (st', .ok ()) =>
      ({ st' with queue := st'.queue ++ [st'.nextId], nextId := st'.nextId + 1 },
       .waiting st'.nextId)

/-- What the caller of exec observes before a response is delivered. -/
inductive ExecOutcome where
  | failFast (e : CommandError) : ExecOutcome
  | awaiting (rx : Nat) : ExecOutcome
deriving Repr, DecidableEq

/-- Client::exec (client.rs): snapshot the open flag, then invoke call
unconditionally; the returned future yields PeerGone when the snapshot was
closed, and otherwise awaits the one-shot receiver. -/
def Client.exec (req : Request) (st : ClientState) : ClientState × ExecOutcome :=
  let is_open := !st.closed
  let res := Client.call req st
  (res.1,
    if is_open then
      match res.2 with
      | .waiting rx => .awaiting rx
      | .ready e => .failFast (.protocol e)
    else .failFast (.protocol (.peerGone none)))

/-! Connector handshake (connector.rs) with the AUTH command (cmd/auth.rs). -/

/-- ASCII bytes of a string literal. -/
def strBytes (s : String) : Buf := s.data.map Char.toNat

/-- The request frame built by cmd::Auth (auth.rs): AUTH plus the password as
a bulk string. -/
def AuthRequest (password : Buf) : Request :=
  .array [.bulkStatic (strBytes "AUTH"), .bulkString password]

/-- Response::into_result (codec.rs): extract a server Error frame. -/
def Response.intoResult : Response → Except Buf Response
  | .error val => .error val
  | val => .ok val

/-- AuthCommand::to_output (auth.rs): true exactly on the simple string OK,
false on every other frame, never an error. -/
def AuthCommand.toOutput (val : Response) : Except CommandError Bool :=
  match val with
  | .string s => .ok (s = strBytes "OK")
  | _ => .ok false

/-- One exec of an Auth command against the given server reply, as performed
inside the connect loop: a transport failure surfaces as Protocol, a server
Error frame as CommandError::Error, anything else through to_output
(client.rs, Client::exec success path). -/
def execAuth (reply : Except ClientError Response) : Except CommandError Bool :=
  match reply with
  | .error e => .error (.protocol e)
  | .ok r =>
      match r.intoResult with
      | .error txt => .error (.error txt)
      | .ok r' => AuthCommand.toOutput r'

/-- The password loop of RedisConnector::connect / connect_simple
(connector.rs): try AUTH with each candidate in order; a command-level error
aborts via `?` into ConnectError::Command; a true output returns the client;
exhausting the list yields Unauthorized. The reply list supplies the server's
answer to each attempt (a missing reply means the transport terminated, which
the one-shot receiver reports as PeerGone). Also returns the AUTH requests
issued, in order. -/
def authLoop : List Buf → List (Except ClientError Response) →
    List Request × Except ConnectError Unit
  | [], _ => ([], .error .unauthorized)
  | p :: ps, replies =>
      let step := match replies with
        | [] => (Except.error (ClientError.peerGone none), ([] : List (Except ClientError Response)))
        | r :: rs => (r, rs)
      match execAuth step.1 with
      | .error ce => ([AuthRequest p], .error (.command ce))
      | .ok true => ([AuthRequest p], .ok ())
      | .ok false =>
          let tail := authLoop ps step.2
          (AuthRequest p :: tail.1, tail.2)

/-- RedisConnector::connect and connect_simple (connector.rs) after the
stream is established: with no configured passwords the client is returned
with no AUTH exchange; otherwise the AUTH loop runs. Flavor-independent: both
entry points share this logic verbatim. -/
def RedisConnector.connect (passwords : List Buf)
    (replies : List (Except ClientError Response)) :
    List Request × Except ConnectError Unit :=
  if passwords.isEmpty then ([], .ok ()) else authLoop passwords replies

/-! Pub/sub demultiplexing (cmd/pubsub.rs). -/

def TYPE_SUBSCRIBE : Buf := strBytes "subscribe"
def TYPE_UNSUBSCRIBE : Buf := strBytes "unsubscribe"
def TYPE_SSUBSCRIBE : Buf := strBytes "ssubscribe"
def TYPE_SUNSUBSCRIBE : Buf := strBytes "sunsubscribe"
def TYPE_PSUBSCRIBE : Buf := strBytes "psubscribe"
def TYPE_PUNSUBSCRIBE : Buf := strBytes "punsubscribe"
def TYPE_MESSAGE : Buf := strBytes "message"
def TYPE_SMESSAGE : Buf := strBytes "smessage"
def TYPE_PMESSAGE : Buf := strBytes "pmessage"

/-- A pub/sub push item (pubsub.rs, enum SubscribeItem). -/
inductive SubscribeItem where
  | subscribed (channel : Buf) : SubscribeItem
  | unSubscribed (channel : Buf) : SubscribeItem
  | message (pattern : Option Buf) (channel : Buf) (payload : Buf) : SubscribeItem
deriving Repr, DecidableEq

/-- TryFrom of Response for Bytes (codec.rs). -/
def bytesTryFrom : Response → Except (String × Response) Buf
  | .bytes b => .ok b
  | v => .error ("Not a bytes object", v)

/-- TryFrom of Response for MessagePayload (pubsub.rs): bulk bytes or an
integer. -/
def payloadTryFrom : Response → Except (String × Response) (Buf ⊕ Int)
  | .bytes b => .ok (.inl b)
  | .integer n => .ok (.inr n)
  | v => .error ("Not a bytes object or integer", v)

/-- The classification of an extracted (type word, pattern, channel, payload)
tuple (the final match of TryFrom for SubscribeItem in pubsub.rs). -/
def classifyItem (mtype : Buf) (pattern : Option Buf) (channel : Buf)
    (payload : Buf ⊕ Int) : Except CommandError SubscribeItem :=
  if mtype = TYPE_SUBSCRIBE ∨ mtype = TYPE_SSUBSCRIBE ∨ mtype = TYPE_PSUBSCRIBE then
    .ok (.subscribed channel)
  else if mtype = TYPE_UNSUBSCRIBE ∨ mtype = TYPE_SUNSUBSCRIBE
      ∨ mtype = TYPE_PUNSUBSCRIBE then
    .ok (.unSubscribed channel)
  else if mtype = TYPE_MESSAGE ∨ mtype = TYPE_SMESSAGE ∨ mtype = TYPE_PMESSAGE then
    match payload with
    | .inl payload => .ok (.message pattern channel payload)
    | .inr _ => .error (.output "Subscription message payload is not bytes" .nil)
  else .error (.output "Subscription message type unknown" (.bytes mtype))

/-- TryFrom of Response for SubscribeItem (pubsub.rs): extract the tuple from
a 3- or 4-element array (the `?` conversions turn the element errors into
CommandError::Output), then classify by the leading type word. -/
def SubscribeItem.tryFrom (val : Response) : Except CommandError SubscribeItem :=
  match val with
  | .array [a0, a1, a2] =>
      (match bytesTryFrom a0 with
       | .error e => .error (.output e.1 e.2)
       | .ok mtype =>
         match bytesTryFrom a1 with
         | .error e => .error (.output e.1 e.2)
         | .ok channel =>
           match payloadTryFrom a2 with
           | .error e => .error (.output e.1 e.2)
           | .ok payload => classifyItem mtype none channel payload)
  | .array [a0, a1, a2, a3] =>
      (match bytesTryFrom a0 with
       | .error e => .error (.output e.1 e.2)
       | .ok mtype =>
         match bytesTryFrom a1 with
         | .error e => .error (.output e.1 e.2)
         | .ok pattern =>
           match bytesTryFrom a2 with
           | .error e => .error (.output e.1 e.2)
           | .ok channel =>
             match payloadTryFrom a3 with
             | .error e => .error (.output e.1 e.2)
             | .ok payload => classifyItem mtype (some pattern) channel payload)
  | .array ary => .error (.output "Array needs to be 3 or 4 elements" (.array ary))
  | v => .error (.output "Unexpected value" v)

/-! Typed integer narrowing (codec.rs, impl_tryfrom_integers and the bool
TryFrom). -/

/-- TryFrom of Response for i64 (codec.rs). -/
def i64TryFrom : Response → Except (String × Response) Int
  | .integer i => .ok i
  | v => .error ("Cannot be converted into an i64", v)

/-- The body the impl_tryfrom_integers macro generates for one target type:
reject when below the target's minimum, or when the target's maximum cast to
i64 is positive and the value exceeds it (codec.rs). tyMaxAsI64 is the
target's maximum after a wrapping cast to i64, so it is -1 for u64 and for a
64-bit usize, which suppresses the upper bound check there exactly as in the
source. -/
def narrowTryFrom (tyMin tyMaxAsI64 : Int) (msg : String) (val : Response) :
    Except (String × Response) Int :=
  match i64TryFrom val with
  | .error e => .error e
  | .ok x =>
      if x < tyMin ∨ (tyMaxAsI64 > 0 ∧ x > tyMaxAsI64) then
        .error (msg, .integer x)
      else .ok x

def i32TryFrom : Response → Except (String × Response) Int :=
  narrowTryFrom (-(2 ^ 31)) (2 ^ 31 - 1) "i64 value cannot be represented as i32"

def u32TryFrom : Response → Except (String × Response) Int :=
  narrowTryFrom 0 (2 ^ 32 - 1) "i64 value cannot be represented as u32"

def u64TryFrom : Response → Except (String × Response) Int :=
  narrowTryFrom 0 (-1) "i64 value cannot be represented as u64"

def usizeTryFrom : Response → Except (String × Response) Int :=
  narrowTryFrom 0 (-1) "i64 value cannot be represented as usize"

def isizeTryFrom : Response → Except (String × Response) Int :=
  narrowTryFrom i64Min i64Max "i64 value cannot be represented as isize"

/-- TryFrom of Response for bool (codec.rs): only the integers 0 and 1. -/
def boolTryFrom (val : Response) : Except (String × Response) Bool :=
  match i64TryFrom val with
  | .error e => .error e
  | .ok x =>
      if x = 0 then .ok false
      else if x = 1 then .ok true
      else .error ("i64 value cannot be represented as bool", .integer x)

/-! Round-trip support: the claim C3 mapping from Response values back to
Request values, and the well-formedness side conditions. -/

mutual
/-- The claim's recursive mapping of a Nil- and Error-free Response to a
Request: Bytes to BulkString, String to String, Integer to Integer, Array to
Array. Nil and Error (excluded by hypothesis) are mapped to a placeholder. -/
def Response.toRequest : Response → Request
  | .nil => .integer 0
  | .error _ => .integer 0
  | .array l => .array (Response.toRequestList l)
  | .bytes b => .bulkString b
  | .string s => .string s
  | .integer v => .integer v

def Response.toRequestList : List Response → List Request
  | [] => []
  | r :: rest => Response.toRequest r :: Response.toRequestList rest
end

mutual
/-- True when a Response contains no Nil and no Error variant (the domain of
the claimed round-trip). -/
def nilErrFree : Response → Bool
  | .nil => false
  | .error _ => false
  | .array l => nilErrFreeList l
  | .bytes _ => true
  | .string _ => true
  | .integer _ => true

def nilErrFreeList : List Response → Bool
  | [] => true
  | r :: rest => nilErrFree r && nilErrFreeList rest
end

mutual
/-- Representability side conditions a Rust Response value satisfies by
construction: simple strings are valid UTF-8 (ByteString) and, for the
corrected round-trip, contain no CRLF; integers fit in i64; byte and array
lengths fit in i64. -/
def wfResp : Response → Bool
  | .nil => true
  | .error _ => true
  | .bytes b => decide ((b.length : Int) ≤ i64Max)
  | .string s => validUtf8 s && (findCRLF s).isNone
  | .integer v => decide (i64Min ≤ v ∧ v ≤ i64Max)
  | .array l => wfList l && decide ((l.length : Int) ≤ i64Max)

def wfList : List Response → Bool
  | [] => true
  | r :: rest => wfResp r && wfList rest
end

mutual
/-- Nesting depth of a Response; bounds the decoder fuel its encoding needs. -/
def rdepth : Response → Nat
  | .array l => 1 + rdepthList l
  | _ => 1

def rdepthList : List Response → Nat
  | [] => 0
  | r :: rest => max (rdepth r) (rdepthList rest)
end

/-! Spec-side pub/sub demux rule for the C7 refinement. -/

/-- True when a frame can stand as a pub/sub payload slot (bulk bytes or
integer). -/
def payloadOk : Response → Bool
  | .bytes _ => true
  | .integer _ => true
  | _ => false

/-- Classification by type word, stated from the spec's demux words as
corrected. -/
def specClassify (t : Buf) (pat : Option Buf) (c : Buf) (p : Response) :
    Option SubscribeItem :=
  if t = TYPE_SUBSCRIBE ∨ t = TYPE_SSUBSCRIBE ∨ t = TYPE_PSUBSCRIBE then
    if payloadOk p then some (.subscribed c) else none
  else if t = TYPE_UNSUBSCRIBE ∨ t = TYPE_SUNSUBSCRIBE ∨ t = TYPE_PUNSUBSCRIBE then
    if payloadOk p then some (.unSubscribed c) else none
  else if t = TYPE_MESSAGE ∨ t = TYPE_SMESSAGE ∨ t = TYPE_PMESSAGE then
    match p with
    | .bytes pl => some (.message pat c pl)
    | _ => none
  else none

/-- The amended demux rule, written from the spec's words as corrected:
conversion succeeds exactly for arrays [t, c, p] or [t, pat, c, p] whose
type word t, channel c (and pattern pat) are bulk bytes, whose payload p is
bulk bytes or an integer, with t one of the nine recognized words and p
required to be bytes when t is a message word. -/
def pubsubSpecItem : Response → Option SubscribeItem
  | .array [.bytes t, .bytes c, p] => specClassify t none c p
  | .array [.bytes t, .bytes pat, .bytes c, p] => specClassify t (some pat) c p
  | _ => none

/-- The bytes of a list of encoded request frames (the concatenation the
encode loop produces from the empty buffer). -/
def encListBytes (l : List Request) : Buf := Codec.encodeList l []

/-! Helper lemmas: decimal digits and their parse, CRLF scanning. -/

theorem natDecimalGo_append (fuel : Nat) : ∀ (n : Nat) (acc : Buf),
    natDecimalGo fuel n acc = natDecimalGo fuel n [] ++ acc := by
  induction fuel with
  | zero => intro n acc; simp [natDecimalGo]
  | succ f ih =>
      intro n acc
      by_cases h : n < 10
      · simp [natDecimalGo, h]
      · simp only [natDecimalGo, if_neg h]
        rw [ih (n / 10) ((48 + n % 10) :: acc), ih (n / 10) [48 + n % 10]]
        simp

theorem natDecimalGo_irrel (f1 : Nat) : ∀ (f2 n : Nat) (acc : Buf),
    n ≤ f1 → n ≤ f2 → natDecimalGo f1 n acc = natDecimalGo f2 n acc := by
  induction f1 with
  | zero =>
      intro f2 n acc h1 _
      have hn : n = 0 := by omega
      subst hn
      cases f2 <;> simp [natDecimalGo]
  | succ f ih =>
      intro f2 n acc h1 h2
      by_cases h : n < 10
      · cases f2 with
        | zero =>
            have hn : n = 0 := by omega
            subst hn; simp [natDecimalGo]
        | succ g => simp [natDecimalGo, h]
      · cases f2 with
        | zero => omega
        | succ g =>
            simp only [natDecimalGo, if_neg h]
            exact ih g (n / 10) _ (by omega) (by omega)

theorem natDecimal_eq_lt (n : Nat) (h : n < 10) : natDecimal n = [48 + n] := by
  cases n with
  | zero => simp [natDecimal, natDecimalGo]
  | succ m => simp [natDecimal, natDecimalGo, h]

theorem natDecimal_eq_ge (n : Nat) (h : 10 ≤ n) :
    natDecimal n = natDecimal (n / 10) ++ [48 + n % 10] := by
  obtain ⟨f, hf⟩ : ∃ f, n = f + 1 := ⟨n - 1, by omega⟩
  subst hf
  simp only [natDecimal, natDecimalGo, if_neg (by omega : ¬ f + 1 < 10)]
  rw [natDecimalGo_append f ((f + 1) / 10) [48 + (f + 1) % 10]]
  rw [natDecimalGo_irrel f ((f + 1) / 10) ((f + 1) / 10) []
        (by omega) (le_refl _)]

theorem natDecimal_all_digits (n : Nat) : (natDecimal n).all isDigitByte = true := by
  induction n using Nat.strong_induction_on with
  | _ n ih =>
      by_cases h : n < 10
      · rw [natDecimal_eq_lt n h]; simp [isDigitByte]; omega
      · rw [natDecimal_eq_ge n (by omega)]
        simp only [List.all_append, Bool.and_eq_true]
        refine ⟨ih (n / 10) (by omega), ?_⟩
        simp [isDigitByte]; omega

theorem natDecimal_ne_nil (n : Nat) : natDecimal n ≠ [] := by
  by_cases h : n < 10
  · rw [natDecimal_eq_lt n h]; simp
  · rw [natDecimal_eq_ge n (by omega)]; simp

theorem foldl_natDecimal (n : Nat) :
    (natDecimal n).foldl (fun a d => a * 10 + (d - 48)) 0 = n := by
  induction n using Nat.strong_induction_on with
  | _ n ih =>
      by_cases h : n < 10
      · rw [natDecimal_eq_lt n h]; simp
      · rw [natDecimal_eq_ge n (by omega), List.foldl_append]
        rw [ih (n / 10) (by omega)]
        simp; omega

theorem digitsVal_natDecimal (n : Nat) : digitsVal (natDecimal n) = some n := by
  simp only [digitsVal, natDecimal_all_digits n, natDecimal_ne_nil n, and_true,
    ne_eq, not_false_eq_true, if_true, foldl_natDecimal n]

theorem btoiI64_natDecimal (n : Nat) (h : (n : Int) ≤ i64Max) :
    btoiI64 (natDecimal n) = some (n : Int) := by
  cases hnd : natDecimal n with
  | nil => exact absurd hnd (natDecimal_ne_nil n)
  | cons d ds =>
      have hall := natDecimal_all_digits n
      rw [hnd] at hall
      have hd : isDigitByte d = true := by
        simp [List.all_cons] at hall; exact hall.1
      have hd' : 48 ≤ d ∧ d ≤ 57 := by
        simpa [isDigitByte, Bool.and_eq_true, decide_eq_true_eq] using hd
      have h43 : d ≠ 43 := by omega
      have h45 : d ≠ 45 := by omega
      rw [← hnd]
      conv_lhs => rw [hnd]
      simp only [btoiI64, if_neg h43, if_neg h45, ← hnd, digitsVal_natDecimal n]
      simp [h]

theorem intDecimal_natCast (n : Nat) : intDecimal (n : Int) = natDecimal n := by
  simp [intDecimal]

theorem btoiI64_intDecimal (v : Int) (h1 : i64Min ≤ v) (h2 : v ≤ i64Max) :
    btoiI64 (intDecimal v) = some v := by
  by_cases hv : v < 0
  · have hEq : intDecimal v = 45 :: natDecimal v.natAbs := by simp [intDecimal, hv]
    have hcast : ((v.natAbs : Int)) = -v := by omega
    rw [hEq]
    simp only [btoiI64, digitsVal_natDecimal]
    norm_num [hcast, h1]
  · have hv' : (0 : Int) ≤ v := by omega
    have : intDecimal v = natDecimal v.toNat := by
      simp [intDecimal, not_lt.mpr hv']
    rw [this, btoiI64_natDecimal v.toNat (by omega)]
    congr 1
    omega

theorem findCRLF_prefix_no10 : ∀ (ds t : Buf), (∀ d ∈ ds, d ≠ 10) →
    findCRLF (ds ++ 13 :: 10 :: t) = some ds.length := by
  intro ds
  induction ds with
  | nil => intro t _; simp [findCRLF]
  | cons d ds ih =>
      intro t hno
      cases ds with
      | nil =>
          simp only [List.cons_append, List.nil_append, findCRLF]
          norm_num
      | cons e ds' =>
          have he : e ≠ 10 := hno e (by simp)
          simp only [List.cons_append, findCRLF, List.append_eq] at *
          rw [if_neg (by simp [he])]
          rw [ih t (fun x hx => hno x (by simp [hx]))]
          simp

theorem findCRLF_prefix_none : ∀ (s t : Buf), findCRLF s = none →
    findCRLF (s ++ 13 :: 10 :: t) = some s.length := by
  intro s
  induction s with
  | nil => intro t _; simp [findCRLF]
  | cons d s ih =>
      intro t hnone
      cases s with
      | nil =>
          simp only [List.cons_append, List.nil_append, findCRLF]
          norm_num
      | cons e s' =>
          simp only [findCRLF] at hnone
          have hcond : ¬(d = 13 ∧ e = 10) := by
            intro hc
            rw [if_pos hc] at hnone
            exact Option.noConfusion hnone
          rw [if_neg hcond] at hnone
          have htail : findCRLF (e :: s') = none := by
            cases h : findCRLF (e :: s') with
            | none => rfl
            | some k => rw [h] at hnone; simp at hnone
          simp only [List.cons_append, findCRLF, List.append_eq]
          rw [if_neg hcond]
          have hrec := ih t htail
          simp only [List.cons_append] at hrec
          rw [hrec]
          simp

theorem isDigit_ne_10 (d : Nat) (h : isDigitByte d = true) : d ≠ 10 := by
  simp [isDigitByte, Bool.and_eq_true, decide_eq_true_eq] at h
  omega

theorem intDecimal_no10 (v : Int) : ∀ d ∈ intDecimal v, d ≠ 10 := by
  intro d hd
  by_cases hv : v < 0
  · simp only [intDecimal, if_pos hv, List.mem_cons] at hd
    rcases hd with h | h
    · omega
    · have := natDecimal_all_digits v.natAbs
      rw [List.all_eq_true] at this
      exact isDigit_ne_10 d (this d h)
  · simp only [intDecimal, if_neg hv] at hd
    have := natDecimal_all_digits v.toNat
    rw [List.all_eq_true] at this
    exact isDigit_ne_10 d (this d hd)

theorem natDecimal_no10 (n : Nat) : ∀ d ∈ natDecimal n, d ≠ 10 := by
  intro d hd
  have := natDecimal_all_digits n
  rw [List.all_eq_true] at this
  exact isDigit_ne_10 d (this d hd)

/-- Generic slicing helpers for buffers built from a prefix of known length. -/
theorem drop_len_append (A B : Buf) (k : Nat) (hk : k = A.length) :
    (A ++ B).drop k = B := by
  subst hk
  simp

theorem take_len_append (A B : Buf) (k : Nat) (hk : k = A.length) :
    (A ++ B).take k = A := by
  subst hk
  simp

theorem decode_length_at (buf : Buf) (idx : Nat) (num t : Buf) (v : Int)
    (hdrop : buf.drop idx = num ++ 13 :: 10 :: t)
    (hcrlf : findCRLF (num ++ 13 :: 10 :: t) = some num.length)
    (hval : btoiI64 num = some v) :
    decode_length buf idx = .ok (some (idx + num.length + 2, v)) := by
  simp only [decode_length, hdrop, hcrlf]
  rw [take_len_append num (13 :: 10 :: t) num.length rfl, hval]

/-! Encoder structure lemmas. -/

mutual
theorem encode_append (q : Request) : ∀ (buf : Buf),
    Codec.encode q buf = buf ++ encBytes q := by
  cases q with
  | array l =>
      intro buf
      simp only [Codec.encode, encBytes]
      rw [encodeList_append l (write_header 42 l.length buf),
        encodeList_append l (write_header 42 l.length [])]
      simp [write_header, write_rn]
  | bulkString b =>
      intro buf; simp [Codec.encode, encBytes, write_header, write_rn]
  | bulkStatic b =>
      intro buf; simp [Codec.encode, encBytes, write_header, write_rn]
  | bulkInteger i =>
      intro buf; simp [Codec.encode, encBytes, write_header, write_rn]
  | string s =>
      intro buf; simp [Codec.encode, encBytes, write_string, write_rn]
  | integer v =>
      intro buf; simp [Codec.encode, encBytes, write_header, write_rn]

theorem encodeList_append (l : List Request) : ∀ (buf : Buf),
    Codec.encodeList l buf = buf ++ encListBytes l := by
  cases l with
  | nil => intro buf; simp [Codec.encodeList, encListBytes]
  | cons r rest =>
      intro buf
      simp only [Codec.encodeList, encListBytes]
      rw [encodeList_append rest (Codec.encode r buf),
        encodeList_append rest (Codec.encode r []),
        encode_append r buf, encode_append r []]
      simp
end

theorem encListBytes_cons (q : Request) (qs : List Request) :
    encListBytes (q :: qs) = encBytes q ++ encListBytes qs := by
  simp only [encListBytes, Codec.encodeList]
  rw [encodeList_append qs (Codec.encode q []), encode_append q []]
  simp [encListBytes]

/-- Shape of an encoded bulk string. -/
theorem encBulk_shape (b : Buf) : encBytes (Request.bulkString b) =
    36 :: (natDecimal b.length ++ 13 :: 10 :: (b ++ [13, 10])) := by
  simp [encBytes, Codec.encode, write_header, write_rn, intDecimal_natCast]

/-- Shape of an encoded simple string. -/
theorem encString_shape (s : Buf) : encBytes (Request.string s) =
    43 :: (s ++ [13, 10]) := by
  simp [encBytes, Codec.encode, write_string, write_rn]

/-- Shape of an encoded integer. -/
theorem encInteger_shape (v : Int) : encBytes (Request.integer v) =
    58 :: (intDecimal v ++ [13, 10]) := by
  simp [encBytes, Codec.encode, write_header, write_rn]

/-- Shape of an encoded array. -/
theorem encArray_shape (items : List Request) : encBytes (Request.array items) =
    42 :: (natDecimal items.length ++ 13 :: 10 :: encListBytes items) := by
  simp only [encBytes, Codec.encode]
  rw [encodeList_append items (write_header 42 items.length [])]
  simp [write_header, write_rn, intDecimal_natCast]

theorem one_le_rdepth (r : Response) : 1 ≤ rdepth r := by
  cases r <;> simp [rdepth]

theorem toRequestList_length (l : List Response) :
    (Response.toRequestList l).length = l.length := by
  induction l with
  | nil => rfl
  | cons x xs ih => simp [Response.toRequestList, ih]

theorem get_append_cons (pre : Buf) (c : Nat) (D rest : Buf)
    (h : pre.length < (pre ++ (c :: D) ++ rest).length) :
    (pre ++ (c :: D) ++ rest).get ⟨pre.length, h⟩ = c := by
  have hb : pre ++ (c :: D) ++ rest = pre ++ c :: (D ++ rest) := by simp
  rw [List.get_eq_getElem]
  simp only [hb]
  rw [List.getElem_append_right (le_refl pre.length)]
  simp

/-! The central decode-of-encode lemma: decoding an encoded well-formed frame
embedded at the current position succeeds, returns the original value, and
leaves the buffer in the junk-plus-suffix shape the decoder's buffer
mutation produces. -/

mutual
theorem decodeD_enc (r : Response) (fuel : Nat) (hwf : wfResp r = true)
    (hne : nilErrFree r = true) (hfuel : rdepth r ≤ fuel) (pre rest : Buf) :
    ∃ junk : Buf,
      decodeD fuel (pre ++ encBytes r.toRequest ++ rest) pre.length
        = (junk ++ rest, .ok (some (junk.length, r))) := by
  obtain ⟨f, rfl⟩ : ∃ f, fuel = f + 1 :=
    ⟨fuel - 1, by have := one_le_rdepth r; omega⟩
  cases r with
  | nil => simp [nilErrFree] at hne
  | error s => simp [nilErrFree] at hne
  | bytes b =>
      have hbound : (b.length : Int) ≤ i64Max := by
        simpa [wfResp, decide_eq_true_eq] using hwf
      have hshape : encBytes (Response.toRequest (.bytes b)) =
          36 :: (natDecimal b.length ++ 13 :: 10 :: (b ++ [13, 10])) := by
        simp [Response.toRequest, encBulk_shape]
      refine ⟨[13, 10], ?_⟩
      rw [hshape]
      set D := natDecimal b.length ++ 13 :: 10 :: (b ++ [13, 10]) with hD
      have hlt : pre.length < (pre ++ (36 :: D) ++ rest).length := by
        simp
      simp only [decodeD, dif_pos hlt, get_append_cons pre 36 D rest hlt]
      have hdrop1 : (pre ++ (36 :: D) ++ rest).drop (pre.length + 1)
          = natDecimal b.length ++ 13 :: 10 :: (b ++ 13 :: 10 :: rest) := by
        have hb : pre ++ (36 :: D) ++ rest
            = (pre ++ [36]) ++ (natDecimal b.length ++ 13 :: 10 :: (b ++ 13 :: 10 :: rest)) := by
          simp [hD]
        rw [hb, drop_len_append _ _ _ (by simp)]
      have hlen : decode_length (pre ++ (36 :: D) ++ rest) (pre.length + 1)
          = .ok (some (pre.length + 1 + (natDecimal b.length).length + 2, (b.length : Int))) := by
        refine decode_length_at _ _ _ _ _ hdrop1 ?_ ?_
        · exact findCRLF_prefix_no10 _ _ (natDecimal_no10 _)
        · exact btoiI64_natDecimal _ hbound
      simp only [decode_bytes, hlen]
      rw [if_neg (by omega : ¬ ((b.length : Int) = -1)),
        if_pos (by omega : (0 : Int) ≤ (b.length : Int))]
      have hrem : ¬ ((pre ++ (36 :: D) ++ rest).length
            - (pre.length + 1 + (natDecimal b.length).length + 2)
          < (b.length : Int).toNat + 2) := by
        simp [hD]
        omega
      rw [if_neg hrem]
      have hdrop2 : (pre ++ (36 :: D) ++ rest).drop
            (pre.length + 1 + (natDecimal b.length).length + 2)
          = b ++ 13 :: 10 :: rest := by
        have hb : pre ++ (36 :: D) ++ rest
            = ((pre ++ [36]) ++ natDecimal b.length ++ [13, 10]) ++ (b ++ 13 :: 10 :: rest) := by
          simp [hD]
        rw [hb, drop_len_append _ _ _ (by simp; omega)]
      rw [hdrop2]
      have htoNat : ((b.length : Int)).toNat = b.length := by omega
      rw [htoNat, take_len_append b (13 :: 10 :: rest) b.length rfl,
        drop_len_append b (13 :: 10 :: rest) b.length rfl]
      simp
  | string s =>
      have hwf' : validUtf8 s = true ∧ findCRLF s = none := by
        simpa [wfResp, Option.isNone_iff_eq_none] using hwf
      have hshape : encBytes (Response.toRequest (.string s)) =
          43 :: (s ++ [13, 10]) := by
        simp [Response.toRequest, encString_shape]
      refine ⟨[13, 10], ?_⟩
      rw [hshape]
      set D := s ++ [13, 10] with hD
      have hlt : pre.length < (pre ++ (43 :: D) ++ rest).length := by simp
      simp only [decodeD, dif_pos hlt, get_append_cons pre 43 D rest hlt]
      have hdrop1 : (pre ++ (43 :: D) ++ rest).drop (pre.length + 1)
          = s ++ 13 :: 10 :: rest := by
        have hb : pre ++ (43 :: D) ++ rest
            = (pre ++ [43]) ++ (s ++ 13 :: 10 :: rest) := by simp [hD]
        rw [hb, drop_len_append _ _ _ (by simp)]
      simp only [decode_string, scan_string, hdrop1,
        findCRLF_prefix_none s rest hwf'.2]
      rw [take_len_append s (13 :: 10 :: rest) s.length rfl,
        drop_len_append s (13 :: 10 :: rest) s.length rfl]
      rw [if_pos hwf'.1]
      simp
  | integer v =>
      have hbound : i64Min ≤ v ∧ v ≤ i64Max := by
        simpa [wfResp, decide_eq_true_eq] using hwf
      have hshape : encBytes (Response.toRequest (.integer v)) =
          58 :: (intDecimal v ++ [13, 10]) := by
        simp [Response.toRequest, encInteger_shape]
      refine ⟨pre ++ (58 :: (intDecimal v ++ [13, 10])), ?_⟩
      rw [hshape]
      set D := intDecimal v ++ [13, 10] with hD
      have hlt : pre.length < (pre ++ (58 :: D) ++ rest).length := by simp
      simp only [decodeD, dif_pos hlt, get_append_cons pre 58 D rest hlt]
      have hdrop1 : (pre ++ (58 :: D) ++ rest).drop (pre.length + 1)
          = intDecimal v ++ 13 :: 10 :: rest := by
        have hb : pre ++ (58 :: D) ++ rest
            = (pre ++ [58]) ++ (intDecimal v ++ 13 :: 10 :: rest) := by simp [hD]
        rw [hb, drop_len_append _ _ _ (by simp)]
      have hlen : decode_length (pre ++ (58 :: D) ++ rest) (pre.length + 1)
          = .ok (some (pre.length + 1 + (intDecimal v).length + 2, v)) := by
        refine decode_length_at _ _ _ _ _ hdrop1 ?_ ?_
        · exact findCRLF_prefix_no10 _ _ (intDecimal_no10 v)
        · exact btoiI64_intDecimal v hbound.1 hbound.2
      simp only [decode_integer, hlen]
      have hlen2 : pre.length + 1 + (intDecimal v).length + 2
          = (pre ++ 58 :: D).length := by
        simp [hD]; omega
      rw [hlen2]
  | array l =>
      have hwf' : wfList l = true ∧ ((l.length : Int)) ≤ i64Max := by
        simpa [wfResp, decide_eq_true_eq] using hwf
      have hne' : nilErrFreeList l = true := by
        simpa [nilErrFree] using hne
      have hfuel' : rdepthList l ≤ f := by
        simp [rdepth] at hfuel; omega
      have hshape : encBytes (Response.toRequest (.array l)) =
          42 :: (natDecimal l.length ++ 13 :: 10 ::
            encListBytes (Response.toRequestList l)) := by
        simp [Response.toRequest, encArray_shape, toRequestList_length]
      rw [hshape]
      set D := natDecimal l.length ++ 13 :: 10 ::
        encListBytes (Response.toRequestList l) with hD
      have hlt : pre.length < (pre ++ (42 :: D) ++ rest).length := by simp
      have hdrop1 : (pre ++ (42 :: D) ++ rest).drop (pre.length + 1)
          = natDecimal l.length ++ 13 :: 10 ::
              (encListBytes (Response.toRequestList l) ++ rest) := by
        have hb : pre ++ (42 :: D) ++ rest
            = (pre ++ [42]) ++ (natDecimal l.length ++ 13 :: 10 ::
                (encListBytes (Response.toRequestList l) ++ rest)) := by simp [hD]
        rw [hb, drop_len_append _ _ _ (by simp)]
      have hlen : decode_length (pre ++ (42 :: D) ++ rest) (pre.length + 1)
          = .ok (some (pre.length + 1 + (natDecimal l.length).length + 2,
              (l.length : Int))) := by
        refine decode_length_at _ _ _ _ _ hdrop1 ?_ ?_
        · exact findCRLF_prefix_no10 _ _ (natDecimal_no10 _)
        · exact btoiI64_natDecimal _ hwf'.2
      have hbufEq : pre ++ (42 :: D) ++ rest
          = (pre ++ [42] ++ natDecimal l.length ++ [13, 10])
              ++ encListBytes (Response.toRequestList l) ++ rest := by
        simp [hD]
      obtain ⟨junk, hloop⟩ := decodeLoop_enc l f hwf'.1 hne' hfuel'
        (pre ++ [42] ++ natDecimal l.length ++ [13, 10]) rest
      refine ⟨junk, ?_⟩
      simp only [decodeD, dif_pos hlt, get_append_cons pre 42 D rest hlt]
      simp only [decode_array, hlen]
      rw [if_neg (by omega : ¬ ((l.length : Int) = -1)),
        if_pos (by omega : (0 : Int) ≤ (l.length : Int))]
      have htoNat : ((l.length : Int)).toNat = l.length := by omega
      have hpos : pre.length + 1 + (natDecimal l.length).length + 2
          = (pre ++ [42] ++ natDecimal l.length ++ [13, 10]).length := by
        simp; omega
      rw [htoNat, hpos, hbufEq, hloop]

theorem decodeLoop_enc (l : List Response) (fuel : Nat) (hwf : wfList l = true)
    (hne : nilErrFreeList l = true) (hfuel : rdepthList l ≤ fuel) (pre rest : Buf) :
    ∃ junk : Buf,
      decodeArrayLoop (decodeD fuel) l.length
          (pre ++ encListBytes (Response.toRequestList l) ++ rest) pre.length
        = (junk ++ rest, .ok (some (junk.length, l))) := by
  cases l with
  | nil =>
      refine ⟨pre, ?_⟩
      simp [Response.toRequestList, encListBytes, Codec.encodeList,
        decodeArrayLoop]
  | cons x xs =>
      have hwfx : wfResp x = true ∧ wfList xs = true := by
        simpa [wfList, Bool.and_eq_true] using hwf
      have hnex : nilErrFree x = true ∧ nilErrFreeList xs = true := by
        simpa [nilErrFreeList, Bool.and_eq_true] using hne
      have hfx : rdepth x ≤ fuel ∧ rdepthList xs ≤ fuel := by
        simp [rdepthList] at hfuel; omega
      have hsplit : encListBytes (Response.toRequestList (x :: xs))
          = encBytes x.toRequest ++ encListBytes (Response.toRequestList xs) := by
        simp [Response.toRequestList, encListBytes_cons]
      obtain ⟨j1, h1⟩ := decodeD_enc x fuel hwfx.1 hnex.1 hfx.1 pre
        (encListBytes (Response.toRequestList xs) ++ rest)
      obtain ⟨j2, h2⟩ := decodeLoop_enc xs fuel hwfx.2 hnex.2 hfx.2 j1 rest
      refine ⟨j2, ?_⟩
      have hbufEq : pre ++ encListBytes (Response.toRequestList (x :: xs)) ++ rest
          = pre ++ encBytes x.toRequest ++
              (encListBytes (Response.toRequestList xs) ++ rest) := by
        rw [hsplit]; simp
      rw [hbufEq]
      simp only [List.length_cons, decodeArrayLoop, h1]
      have hb2 : j1 ++ (encListBytes (Response.toRequestList xs) ++ rest)
          = j1 ++ encListBytes (Response.toRequestList xs) ++ rest := by simp
      rw [hb2, h2]
end

mutual
theorem rdepth_le_enc (r : Response) :
    rdepth r ≤ (encBytes r.toRequest).length := by
  cases r with
  | nil => simp [rdepth, Response.toRequest, encInteger_shape]
  | error s => simp [rdepth, Response.toRequest, encInteger_shape]
  | bytes b =>
      have : encBytes (Response.toRequest (.bytes b)) =
          36 :: (natDecimal b.length ++ 13 :: 10 :: (b ++ [13, 10])) := by
        simp [Response.toRequest, encBulk_shape]
      simp [rdepth, this]
  | string s =>
      have : encBytes (Response.toRequest (.string s)) = 43 :: (s ++ [13, 10]) := by
        simp [Response.toRequest, encString_shape]
      simp [rdepth, this]
  | integer v =>
      simp [rdepth, Response.toRequest, encInteger_shape]
  | array l =>
      have hsh : encBytes (Response.toRequest (.array l)) =
          42 :: (natDecimal l.length ++ 13 :: 10 ::
            encListBytes (Response.toRequestList l)) := by
        simp [Response.toRequest, encArray_shape, toRequestList_length]
      have hl := rdepthList_le_enc l
      simp [rdepth, hsh]
      omega

theorem rdepthList_le_enc (l : List Response) :
    rdepthList l ≤ (encListBytes (Response.toRequestList l)).length := by
  cases l with
  | nil => simp [rdepthList]
  | cons x xs =>
      have h1 := rdepth_le_enc x
      have h2 := rdepthList_le_enc xs
      have hsplit : encListBytes (Response.toRequestList (x :: xs))
          = encBytes x.toRequest ++ encListBytes (Response.toRequestList xs) := by
        simp [Response.toRequestList, encListBytes_cons]
      simp [rdepthList, hsplit]
      omega
end

/-! Claim C3: encode/decode round trip. -/

/-- C3 (corrected): for every Response containing no Nil and no Error whose
simple strings are valid UTF-8 and contain no CRLF (and whose integers and
lengths fit in i64, as any Rust value's do), encoding the corresponding
Request and decoding the produced bytes yields the original value and
consumes the entire encoding. -/
theorem roundtrip_encode_decode (r : Response) (h1 : nilErrFree r = true)
    (h2 : wfResp r = true) :
    Codec.decode (encBytes r.toRequest) = ([], .ok (some r)) := by
  have hfuel : rdepth r ≤ (encBytes r.toRequest).length + 1 := by
    have := rdepth_le_enc r; omega
  obtain ⟨junk, hj⟩ := decodeD_enc r ((encBytes r.toRequest).length + 1)
    h2 h1 hfuel [] []
  simp only [List.nil_append, List.append_nil, List.length_nil] at hj
  simp only [Codec.decode, hj, List.drop_length]

/-- C3 witness: the round trip evaluated at a concrete nested value. -/
theorem roundtrip_encode_decode_witness :
    nilErrFree (.array [.bytes [118, 97, 108], .integer (-5), .string [79, 75]]) = true ∧
    wfResp (.array [.bytes [118, 97, 108], .integer (-5), .string [79, 75]]) = true ∧
    Codec.decode (encBytes (Response.toRequest
        (.array [.bytes [118, 97, 108], .integer (-5), .string [79, 75]])))
      = ([], .ok (some (.array [.bytes [118, 97, 108], .integer (-5), .string [79, 75]]))) :=
  ⟨by decide, by decide,
    roundtrip_encode_decode _ (by decide) (by decide)⟩

/-- C3 counterexample: a simple string containing CRLF is Nil- and Error-free
yet does not round trip — the decoder stops at the embedded CRLF, yields a
truncated string and leaves bytes unconsumed. -/
theorem roundtrip_counterexample :
    nilErrFree (.string [97, 13, 10, 98]) = true ∧
    Codec.decode (encBytes (Response.toRequest (.string [97, 13, 10, 98])))
      = ([98, 13, 10], .ok (some (.string [97]))) ∧
    Response.string [97] ≠ Response.string [97, 13, 10, 98] := by
  refine ⟨by decide, by decide, by decide⟩

/-! Claim C4: bulk string decode framing. -/

/-- C4 (corrected): a buffer whose next frame is a bulk header of declared
length n followed by fewer than n+2 bytes decodes to NeedMore with the buffer
untouched; with at least n+2 bytes it yields exactly the first n payload
bytes and consumes exactly n+2 bytes after the header line — the two
trailing bytes are skipped without being validated (they need not be CRLF). -/
theorem decode_bulk_framing (n : Nat) (tail : Buf) (hn : (n : Int) ≤ i64Max) :
    (tail.length < n + 2 →
      Codec.decode (36 :: (natDecimal n ++ 13 :: 10 :: tail))
        = (36 :: (natDecimal n ++ 13 :: 10 :: tail), .ok none)) ∧
    (n + 2 ≤ tail.length →
      Codec.decode (36 :: (natDecimal n ++ 13 :: 10 :: tail))
        = (tail.drop (n + 2), .ok (some (.bytes (tail.take n))))) := by
  set buf := 36 :: (natDecimal n ++ 13 :: 10 :: tail) with hbuf
  have hlt : 0 < buf.length := by simp [hbuf]
  have hget : ∀ (h : 0 < buf.length), buf.get ⟨0, h⟩ = 36 := by
    intro h; simp [hbuf]
  have hdrop1 : buf.drop 1 = natDecimal n ++ 13 :: 10 :: tail := by
    simp [hbuf]
  have hlen : decode_length buf 1
      = .ok (some (1 + (natDecimal n).length + 2, (n : Int))) := by
    exact decode_length_at buf 1 (natDecimal n) tail (n : Int) hdrop1
      (findCRLF_prefix_no10 _ _ (natDecimal_no10 n)) (btoiI64_natDecimal n hn)
  have hbl : buf.length = 1 + (natDecimal n).length + 2 + tail.length := by
    simp [hbuf]; omega
  have htoNat : ((n : Int)).toNat = n := by omega
  constructor
  · intro hle
    have hD : decodeD (buf.length + 1) buf 0 = (buf, .ok none) := by
      simp only [decodeD, dif_pos hlt, hget]
      simp only [decode_bytes, hlen]
      rw [if_neg (by omega : ¬ ((n : Int) = -1)),
        if_pos (by omega : (0 : Int) ≤ (n : Int)),
        if_pos (by rw [htoNat]; omega)]
    simp only [Codec.decode, hD]
  · intro hge
    have hdropPos : buf.drop (1 + (natDecimal n).length + 2) = tail := by
      have hb : buf = (36 :: (natDecimal n ++ [13, 10])) ++ tail := by
        simp [hbuf]
      rw [hb, drop_len_append _ _ _ (by simp; omega)]
    have hD : decodeD (buf.length + 1) buf 0
        = (tail.drop n, .ok (some (2, .bytes (tail.take n)))) := by
      simp only [decodeD, dif_pos hlt, hget]
      simp only [decode_bytes, hlen]
      rw [if_neg (by omega : ¬ ((n : Int) = -1)),
        if_pos (by omega : (0 : Int) ≤ (n : Int)),
        if_neg (by rw [htoNat]; omega)]
      rw [hdropPos, htoNat]
    simp only [Codec.decode, hD]
    rw [List.drop_drop]

/-- C4 witness: the success branch evaluated at a concrete header and tail. -/
theorem decode_bulk_framing_witness :
    1 + 2 ≤ ([97, 13, 10] : Buf).length ∧
    Codec.decode (36 :: (natDecimal 1 ++ 13 :: 10 :: [97, 13, 10]))
      = (([97, 13, 10] : Buf).drop (1 + 2),
         .ok (some (.bytes (([97, 13, 10] : Buf).take 1)))) :=
  ⟨by decide, (decode_bulk_framing 1 [97, 13, 10] (by decide)).2 (by decide)⟩

/-- C4 counterexample: the claim as stated requires the two bytes after the
payload to be CRLF and a frame violating that to be rejected; the decoder
accepts the frame whose trailer is the bytes X Y and consumes them. -/
theorem bulk_trailing_bytes_unchecked :
    Codec.decode [36, 49, 13, 10, 97, 88, 89] = ([], .ok (some (.bytes [97]))) := by
  decide

/-! Claim C2: incremental decode. -/

/-- C2 (code bug): splitting the valid frame *2 CRLF $1 CRLF a CRLF $1 CRLF b
CRLF after its 15th byte and feeding the first part returns NeedMore but has
already consumed nine bytes (the buffer is left holding only the first
child's trailing CRLF and the second child's header), so resuming with the
remaining bytes appended fails with a parse error on the orphaned CR, while
the unsplit buffer decodes fine. -/
theorem incremental_decode_consumes_on_needmore :
    Codec.decode [42, 50, 13, 10, 36, 49, 13, 10, 97, 13, 10, 36, 49, 13, 10]
      = ([13, 10, 36, 49, 13, 10], .ok none) ∧
    Codec.decode ([13, 10, 36, 49, 13, 10] ++ [98, 13, 10])
      = ([13, 10, 36, 49, 13, 10, 98, 13, 10], .error (.parse "Unexpected byte")) ∧
    Codec.decode [42, 50, 13, 10, 36, 49, 13, 10, 97, 13, 10, 36, 49, 13, 10, 98, 13, 10]
      = ([], .ok (some (.array [.bytes [97], .bytes [98]]))) := by
  refine ⟨by decide, by decide, by decide⟩

/-! Claim C1: pipelining FIFO ordering. -/

theorem transport_write_queue (subs : List (Request × Nat)) :
    ∀ (q : List Nat) (w : Buf),
      (Transport.write subs (q, w)).1 = q ++ subs.map Prod.snd := by
  induction subs with
  | nil => intro q w; simp [Transport.write]
  | cons s rest ih =>
      intro q w
      obtain ⟨req, tx⟩ := s
      simp [Transport.write, ih]

theorem transport_dispatch_zip (frames : List Response) :
    ∀ (q : List Nat), (Transport.dispatch frames q).1 = q.zip frames := by
  induction frames with
  | nil => intro q; simp [Transport.dispatch]
  | cons el rest ih =>
      intro q
      cases q with
      | nil => simp [Transport.dispatch, ih]
      | cons tx q' => simp [Transport.dispatch, ih]

theorem transport_dispatch_drop (frames : List Response) :
    ∀ (q : List Nat), (Transport.dispatch frames q).2 = q.drop frames.length := by
  induction frames with
  | nil => intro q; simp [Transport.dispatch]
  | cons el rest ih =>
      intro q
      cases q with
      | nil => simp [Transport.dispatch, ih]
      | cons tx q' => simp [Transport.dispatch, ih]

/-- C1: the write loop enqueues senders on the inflight FIFO in submission
order; the read loop pairs the k-th decoded frame with the k-th FIFO entry
(deliveries are exactly the zip of the FIFO with the frame stream, so
responses are never swapped), consumes the dispatched prefix of the FIFO, and
discards frames decoded while the FIFO is empty without touching any
waiter. -/
theorem pipelining_fifo_order (subs : List (Request × Nat))
    (frames : List Response) (w0 : Buf) (k : Nat)
    (hk1 : k < subs.length) (hk2 : k < frames.length) :
    (Transport.write subs ([], w0)).1 = subs.map Prod.snd ∧
    (∀ q : List Nat, (Transport.dispatch frames q).1 = q.zip frames) ∧
    (∀ q : List Nat, (Transport.dispatch frames q).2 = q.drop frames.length) ∧
    (Transport.dispatch frames []) = ([], []) ∧
    ((Transport.dispatch frames (Transport.write subs ([], w0)).1).1)[k]?
      = some ((subs.map Prod.snd).get ⟨k, by simpa using hk1⟩, frames.get ⟨k, hk2⟩) := by
  refine ⟨transport_write_queue subs [] w0, transport_dispatch_zip frames,
    transport_dispatch_drop frames, ?_, ?_⟩
  · have h1 := transport_dispatch_zip frames []
    have h2 := transport_dispatch_drop frames []
    simp at h1 h2
    exact Prod.ext h1 h2
  · rw [transport_write_queue subs [] w0]
    simp only [List.nil_append]
    rw [transport_dispatch_zip frames (subs.map Prod.snd)]
    have hlen : k < ((subs.map Prod.snd).zip frames).length := by
      simp [List.length_zip]
      omega
    rw [List.getElem?_eq_getElem hlen, List.getElem_zip]
    simp [List.get_eq_getElem]

/-- C1 witness: two pipelined submissions and two response frames are routed
in submission order. -/
theorem pipelining_fifo_order_witness :
    (1 < ([(Request.string (strBytes "PING"), 7), (Request.string (strBytes "GET"), 9)] :
        List (Request × Nat)).length) ∧
    (1 < ([.string (strBytes "PONG"), .bytes [49]] : List Response).length) ∧
    ((Transport.dispatch [.string (strBytes "PONG"), .bytes [49]]
        (Transport.write [(Request.string (strBytes "PING"), 7), (Request.string (strBytes "GET"), 9)]
          ([], [])).1).1)[1]?
      = some ((([(Request.string (strBytes "PING"), 7), (Request.string (strBytes "GET"), 9)] :
          List (Request × Nat)).map Prod.snd).get ⟨1, by decide⟩,
          ([.string (strBytes "PONG"), .bytes [49]] : List Response).get ⟨1, by decide⟩) :=
  ⟨by decide, by decide,
    (pipelining_fifo_order
      [(Request.string (strBytes "PING"), 7), (Request.string (strBytes "GET"), 9)]
      [.string (strBytes "PONG"), .bytes [49]] [] 1
      (by decide) (by decide)).2.2.2.2⟩

/-! Claim C9: Error clone erases payloads but preserves the kind. -/

theorem transport_failed_map (err : Error) (q : List Nat) :
    Transport.failed err q = q.map (fun tx => (tx, err.clone)) := by
  induction q with
  | nil => rfl
  | cons tx rest ih => simp [Transport.failed, ih]

/-- C9: cloning an Error keeps the variant but drops the parse description
and the io cause; draining the inflight FIFO after a failure therefore
delivers to the k-th waiter exactly its sender paired with the stripped
clone of the triggering error. -/
theorem error_clone_drain (s : String) (c : Option IoError) (err : Error)
    (q : List Nat) (k : Nat) :
    Error.clone (.parse s) = .parse "" ∧
    Error.clone (.io c) = .io none ∧
    Error.clone .disconnected = .disconnected ∧
    (Error.clone err).kind = err.kind ∧
    (Transport.failed err q).length = q.length ∧
    (Transport.failed err q)[k]? = (q[k]?).map (fun tx => (tx, err.clone)) := by
  refine ⟨rfl, rfl, rfl, ?_, ?_, ?_⟩
  · cases err <;> rfl
  · rw [transport_failed_map]; simp
  · rw [transport_failed_map, List.getElem?_map]

/-! Claim C10: AUTH output interpretation is total. -/

/-- C10: AuthCommand::to_output returns Ok on every frame, and returns
Ok(true) exactly on the simple string OK. -/
theorem auth_to_output_total (r : Response) :
    (∃ b : Bool, AuthCommand.toOutput r = .ok b) ∧
    (AuthCommand.toOutput r = .ok true ↔ r = .string (strBytes "OK")) := by
  constructor
  · cases r <;> exact ⟨_, rfl⟩
  · cases r <;> simp [AuthCommand.toOutput]

/-! Claim C6: exec on a closed connection. -/

/-- C6 (corrected): calling exec while the connection is already closed makes
the returned future resolve with Protocol(PeerGone) and writes nothing to the
write buffer (the io layer discards writes on a closed io), but exec still
invokes call before consulting the closed snapshot, so a one-shot sender is
pushed: the inflight FIFO grows by exactly one. -/
theorem exec_on_closed (req : Request) (st : ClientState) (h : st.closed = true) :
    Client.exec req st
      = ({ st with queue := st.queue ++ [st.nextId], nextId := st.nextId + 1 },
         .failFast (.protocol (.peerGone none))) := by
  simp [Client.exec, Client.call, IoRef.encode, h]

/-- C6 witness: exec on a concrete closed state. -/
theorem exec_on_closed_witness :
    (ClientState.mk true [] [] 0).closed = true ∧
    Client.exec (.array [.bulkStatic (strBytes "PING")]) (ClientState.mk true [] [] 0)
      = (ClientState.mk true [] [0] 1, .failFast (.protocol (.peerGone none))) :=
  ⟨rfl, exec_on_closed (.array [.bulkStatic (strBytes "PING")]) (ClientState.mk true [] [] 0) rfl⟩

/-- C6 counterexample: on a closed connection the future does fail fast with
PeerGone, but the queue length is not unchanged — it grows from 0 to 1. -/
theorem exec_closed_still_enqueues :
    (Client.exec (.array [.bulkStatic (strBytes "PING")]) (ClientState.mk true [] [] 0)).2
      = .failFast (.protocol (.peerGone none)) ∧
    ((Client.exec (.array [.bulkStatic (strBytes "PING")])
        (ClientState.mk true [] [] 0)).1.queue).length = 1 := by
  refine ⟨by decide, by decide⟩

/-! Claim C8: integer narrowing never truncates. -/

/-- C8: converting Response::Integer(x) to each narrower target succeeds with
the untouched value exactly when x lies in the target's range (0 or 1 for
bool), and otherwise fails with an Output-style error carrying the offending
integer frame — never a truncated value. usize and isize are the 64-bit
variants the source compiles to on a 64-bit platform. -/
theorem integer_narrowing (x : Int) (h64 : i64Min ≤ x ∧ x ≤ i64Max) :
    (i32TryFrom (.integer x) = .ok x ↔ -(2 ^ 31) ≤ x ∧ x ≤ 2 ^ 31 - 1) ∧
    (¬(-(2 ^ 31) ≤ x ∧ x ≤ 2 ^ 31 - 1) →
      i32TryFrom (.integer x)
        = .error ("i64 value cannot be represented as i32", .integer x)) ∧
    (u32TryFrom (.integer x) = .ok x ↔ 0 ≤ x ∧ x ≤ 2 ^ 32 - 1) ∧
    (¬(0 ≤ x ∧ x ≤ 2 ^ 32 - 1) →
      u32TryFrom (.integer x)
        = .error ("i64 value cannot be represented as u32", .integer x)) ∧
    (u64TryFrom (.integer x) = .ok x ↔ 0 ≤ x) ∧
    (¬(0 ≤ x) →
      u64TryFrom (.integer x)
        = .error ("i64 value cannot be represented as u64", .integer x)) ∧
    (usizeTryFrom (.integer x) = .ok x ↔ 0 ≤ x) ∧
    (¬(0 ≤ x) →
      usizeTryFrom (.integer x)
        = .error ("i64 value cannot be represented as usize", .integer x)) ∧
    (isizeTryFrom (.integer x) = .ok x) ∧
    (boolTryFrom (.integer x) = .ok true ↔ x = 1) ∧
    (boolTryFrom (.integer x) = .ok false ↔ x = 0) ∧
    (x ≠ 0 ∧ x ≠ 1 →
      boolTryFrom (.integer x)
        = .error ("i64 value cannot be represented as bool", .integer x)) := by
  have hA : (-9223372036854775808 : Int) ≤ x := by
    have := h64.1
    simp only [i64Min] at this
    norm_num at this
    exact this
  have hB : x ≤ (9223372036854775807 : Int) := by
    have := h64.2
    simp only [i64Max] at this
    norm_num at this
    exact this
  refine ⟨?_, ?_, ?_, ?_, ?_, ?_, ?_, ?_, ?_, ?_, ?_, ?_⟩ <;>
    simp only [i32TryFrom, u32TryFrom, u64TryFrom, usizeTryFrom, isizeTryFrom,
      boolTryFrom, narrowTryFrom, i64TryFrom, i64Min, i64Max] <;>
    norm_num <;>
    (try simp_all) <;>
    (intros; split_ifs <;> simp_all)

/-- C8 witness: an in-range and an out-of-range conversion at concrete
values. -/
theorem integer_narrowing_witness :
    (i64Min ≤ (3 : Int) ∧ (3 : Int) ≤ i64Max) ∧
    i32TryFrom (.integer 3) = .ok 3 :=
  ⟨⟨by decide, by decide⟩,
    (integer_narrowing 3 ⟨by decide, by decide⟩).1.mpr (by norm_num)⟩

/-! Claim C5: the AUTH handshake of connect and connect_simple. -/

theorem authLoop_all_false (passwords : List Buf) :
    ∀ (replies : List (Except ClientError Response)),
      (∀ i, i < passwords.length →
        execAuth (replies.getD i (.error (.peerGone none))) = .ok false) →
      authLoop passwords replies = (passwords.map AuthRequest, .error .unauthorized) := by
  induction passwords with
  | nil => intro replies _; rfl
  | cons p ps ih =>
      intro replies hall
      have h0 := hall 0 (by simp)
      cases replies with
      | nil => simp [List.getD] at h0; simp [execAuth] at h0
      | cons r rs =>
          simp [List.getD] at h0
          have htail := ih rs (fun i hi => by
            have := hall (i + 1) (by simpa using hi)
            simpa [List.getD] using this)
          simp [authLoop, h0, htail]

theorem authLoop_step (k : Nat) :
    ∀ (passwords : List Buf) (replies : List (Except ClientError Response)),
      k < passwords.length →
      (∀ i, i < k → execAuth (replies.getD i (.error (.peerGone none))) = .ok false) →
      (execAuth (replies.getD k (.error (.peerGone none))) = .ok true →
        authLoop passwords replies
          = ((passwords.take (k + 1)).map AuthRequest, .ok ())) ∧
      (∀ ce, execAuth (replies.getD k (.error (.peerGone none))) = .error ce →
        authLoop passwords replies
          = ((passwords.take (k + 1)).map AuthRequest, .error (.command ce))) := by
  induction k with
  | zero =>
      intro passwords replies hk _
      cases passwords with
      | nil => simp at hk
      | cons p ps =>
          cases replies with
          | nil =>
              constructor
              · intro htrue; simp [List.getD, execAuth] at htrue
              · intro ce hce
                simp [List.getD, execAuth] at hce
                simp [authLoop, execAuth, ← hce]
          | cons r rs =>
              constructor
              · intro htrue
                simp [List.getD] at htrue
                simp [authLoop, htrue]
              · intro ce hce
                simp [List.getD] at hce
                simp [authLoop, hce]
  | succ k ih =>
      intro passwords replies hk hprev
      cases passwords with
      | nil => simp at hk
      | cons p ps =>
          have h0 := hprev 0 (by omega)
          cases replies with
          | nil => simp [List.getD, execAuth] at h0
          | cons r rs =>
              rw [List.getD_cons_zero] at h0
              have hk' : k < ps.length := by simpa using hk
              have hprev' : ∀ i, i < k →
                  execAuth (rs.getD i (.error (.peerGone none))) = .ok false := by
                intro i hi
                have := hprev (i + 1) (by omega)
                rwa [List.getD_cons_succ] at this
              obtain ⟨ht, he⟩ := ih ps rs hk' hprev'
              constructor
              · intro htrue
                rw [List.getD_cons_succ] at htrue
                simp [authLoop, h0, ht htrue]
              · intro ce hce
                rw [List.getD_cons_succ] at hce
                simp [authLoop, h0, he ce hce]

/-- C5 (corrected): with no passwords the client is returned with no AUTH
exchange; otherwise AUTH is issued for each candidate in list order, the
client is returned on the first reply whose output is true (the simple
string OK), and exhausting all candidates on false outputs yields
Unauthorized — but a command-level error during the loop (server error
reply, or a transport failure surfacing as Protocol) aborts the loop and is
returned as ConnectError::Command carrying that error, not as Unauthorized
and not as Connect. -/
theorem connect_handshake (passwords : List Buf)
    (replies : List (Except ClientError Response)) (k : Nat) :
    (RedisConnector.connect [] replies = ([], .ok ())) ∧
    (passwords ≠ [] →
      (∀ i, i < passwords.length →
        execAuth (replies.getD i (.error (.peerGone none))) = .ok false) →
      RedisConnector.connect passwords replies
        = (passwords.map AuthRequest, .error .unauthorized)) ∧
    (passwords ≠ [] → k < passwords.length →
      (∀ i, i < k → execAuth (replies.getD i (.error (.peerGone none))) = .ok false) →
      (execAuth (replies.getD k (.error (.peerGone none))) = .ok true →
        RedisConnector.connect passwords replies
          = ((passwords.take (k + 1)).map AuthRequest, .ok ())) ∧
      (∀ ce, execAuth (replies.getD k (.error (.peerGone none))) = .error ce →
        RedisConnector.connect passwords replies
          = ((passwords.take (k + 1)).map AuthRequest, .error (.command ce)))) := by
  refine ⟨rfl, ?_, ?_⟩
  · intro hne hall
    have hne' : passwords.isEmpty = false := by
      cases passwords with
      | nil => simp at hne
      | cons p ps => rfl
    simp only [RedisConnector.connect, hne', Bool.false_eq_true, if_false]
    exact authLoop_all_false passwords replies hall
  · intro hne hk hprev
    have hne' : passwords.isEmpty = false := by
      cases passwords with
      | nil => simp at hne
      | cons p ps => rfl
    simp only [RedisConnector.connect, hne', Bool.false_eq_true, if_false]
    exact authLoop_step k passwords replies hk hprev

/-- C5 witness: two candidate passwords, the first rejected by a plain
non-OK reply, the second accepted with OK. -/
theorem connect_handshake_witness :
    RedisConnector.connect [strBytes "bad", strBytes "good"]
        [.ok (.string (strBytes "nope")), .ok (.string (strBytes "OK"))]
      = ((([strBytes "bad", strBytes "good"] : List Buf).take 2).map AuthRequest, .ok ()) :=
  ((connect_handshake [strBytes "bad", strBytes "good"]
      [.ok (.string (strBytes "nope")), .ok (.string (strBytes "OK"))] 1).2.2
    (by decide) (by decide)
    (fun i hi => by
      have hi0 : i = 0 := by omega
      subst hi0
      decide)).1 (by decide)

/-- C5 counterexample: a server error reply to AUTH ends the handshake with
ConnectError::Command carrying the command error, not with Unauthorized as
the claim states. -/
theorem connect_error_not_unauthorized :
    RedisConnector.connect [strBytes "bad"] [.ok (.error (strBytes "ERR invalid password"))]
      = ([AuthRequest (strBytes "bad")],
         .error (.command (.error (strBytes "ERR invalid password")))) ∧
    (RedisConnector.connect [strBytes "bad"]
        [.ok (.error (strBytes "ERR invalid password"))]).2
      ≠ .error .unauthorized := by
  refine ⟨by decide, by decide⟩

/-! Claim C7: pub/sub demultiplexing. -/

theorem classify_toOption_inl (t : Buf) (pat : Option Buf) (c pl : Buf) :
    (classifyItem t pat c (.inl pl)).toOption = specClassify t pat c (.bytes pl) := by
  simp only [classifyItem, specClassify, payloadOk]
  split_ifs <;> simp [Except.toOption]

theorem classify_toOption_inr (t : Buf) (pat : Option Buf) (c : Buf) (n : Int) :
    (classifyItem t pat c (.inr n)).toOption = specClassify t pat c (.integer n) := by
  simp only [classifyItem, specClassify, payloadOk]
  split_ifs <;> simp [Except.toOption]

theorem specClassify_bad (t : Buf) (pat : Option Buf) (c : Buf) (p : Response)
    (hp : payloadOk p = false) : specClassify t pat c p = none := by
  cases p <;> simp_all [specClassify, payloadOk]

/-- C7 (corrected, as a refinement): the successful conversions of the
pub/sub TryFrom agree exactly with the amended demux rule — an array
[t, c, p] or [t, pat, c, p] converts successfully iff t, c (and pat) are
bulk bytes, p is bulk bytes or an integer, t is one of the nine recognized
type words, and p is bytes whenever t is a message word; every other frame
(including length-3/4 arrays with a recognized word but mistyped elements)
yields an Output error. -/
theorem pubsub_demux_refines (val : Response) :
    (SubscribeItem.tryFrom val).toOption = pubsubSpecItem val := by
  cases val with
  | nil => rfl
  | bytes b => rfl
  | string s => rfl
  | error e => rfl
  | integer n => rfl
  | array l =>
      cases l with
      | nil => rfl
      | cons a0 l1 =>
          cases l1 with
          | nil => cases a0 <;> rfl
          | cons a1 l2 =>
              cases l2 with
              | nil => cases a0 <;> cases a1 <;> rfl
              | cons a2 l3 =>
                  cases l3 with
                  | nil =>
                      cases a0 <;> try rfl
                      cases a1 <;> try rfl
                      cases a2 <;> try rfl
                      case bytes.bytes.bytes t c pl =>
                        exact classify_toOption_inl t none c pl
                      case bytes.bytes.integer t c n =>
                        exact classify_toOption_inr t none c n
                      case bytes.bytes.nil t c =>
                        exact (specClassify_bad t none c .nil rfl).symm
                      case bytes.bytes.array t c items =>
                        exact (specClassify_bad t none c (.array items) rfl).symm
                      case bytes.bytes.string t c s =>
                        exact (specClassify_bad t none c (.string s) rfl).symm
                      case bytes.bytes.error t c e =>
                        exact (specClassify_bad t none c (.error e) rfl).symm
                  | cons a3 l4 =>
                      cases l4 with
                      | cons a4 l5 =>
                          cases a0 <;> cases a1 <;> cases a2 <;> cases a3 <;> rfl
                      | nil =>
                          cases a0 <;> try rfl
                          cases a1 <;> try rfl
                          cases a2 <;> try rfl
                          cases a3 <;> try rfl
                          case bytes.bytes.bytes.bytes t pat c pl =>
                            exact classify_toOption_inl t (some pat) c pl
                          case bytes.bytes.bytes.integer t pat c n =>
                            exact classify_toOption_inr t (some pat) c n
                          case bytes.bytes.bytes.nil t pat c =>
                            exact (specClassify_bad t (some pat) c .nil rfl).symm
                          case bytes.bytes.bytes.array t pat c items =>
                            exact (specClassify_bad t (some pat) c (.array items) rfl).symm
                          case bytes.bytes.bytes.string t pat c s =>
                            exact (specClassify_bad t (some pat) c (.string s) rfl).symm
                          case bytes.bytes.bytes.error t pat c e =>
                            exact (specClassify_bad t (some pat) c (.error e) rfl).symm

/-- C7 counterexample: two length-3 arrays whose first element is a
recognized type word, which the claim as stated says must convert
successfully, yet the conversion errors: a message whose payload slot is an
integer, and a subscribe confirmation whose channel slot is an integer. -/
theorem pubsub_recognized_word_can_fail :
    SubscribeItem.tryFrom
        (.array [.bytes (strBytes "message"), .bytes (strBytes "ch"), .integer 1])
      = .error (.output "Subscription message payload is not bytes" .nil) ∧
    SubscribeItem.tryFrom
        (.array [.bytes (strBytes "subscribe"), .integer 1, .integer 1])
      = .error (.output "Not a bytes object" (.integer 1)) := by
  refine ⟨by decide, by decide⟩

end NtexRedis
